import Mathlib

/-!
Shallow embedding of the spin-animation engine of `src/SlotMachine.tsx`
(a single slot-machine reel component).

The pure layer below mirrors the arithmetic of the source: sequence
generation (`pickRandom`, `generateItems`, `buildSequence`), the stop-target
computation with bounded random jitter (`randomOffset`, `targetTranslate`),
index resolution (`resolveFromTranslate`) and the cubic ease-out motion law.

The temporal layer (`MState`, `Step`) models the scheduler of `spin()`:
the refs `isSpinningRef`, `spinTokenRef`, `completedTokenRef`,
`spinStartedAtRef`, the three timeout refs and the animation-frame ref,
with an explicit wall clock and an event log of `onSpinStart` / `onSpinEnd`
invocations.  JS numbers are modelled as rationals; `Math.random()` draws
are nondeterministic parameters constrained to `[0, 1)`.
-/

namespace SlotMachine

/-- JS `Math.round`: round half toward positive infinity. -/
def jround (q : ℚ) : ℤ := ⌊q + 1/2⌋

/-- `Math.max(0, Math.min(i, hi))` on integers. -/
def clampIdx (i : ℤ) (hi : ℤ) : ℤ := max 0 (min i hi)

/-- `STOP_OFFSET_RATIO` (line 16 of the source). -/
def STOP_OFFSET_RATIO : ℚ := 49/100

/-- The component props/configuration that the spin engine reads.
`placeholder` stands for the placeholder object
`{id: "", image: placeholderImage, name: ""}` built by `pickRandom`
for an empty pool. -/
structure Params (α : Type) where
  pool : List α
  placeholder : α
  forcedResult : Option α
  duration : ℚ
  twistDuration : ℚ
  reelItemCount : ℕ
  forcedTargetIndex : ℤ
  itemSize : ℚ
  itemGap : ℚ

variable {α : Type}

/-- `itemTotal = itemSize + itemGap * 2` (line 75). -/
def Params.itemTotal (P : Params α) : ℚ := P.itemSize + P.itemGap * 2

/-- `minMs = duration + twistDuration` (line 192). -/
def Params.minMs (P : Params α) : ℚ := P.duration + P.twistDuration

/-- `forcedBaseCount = forcedTargetIndex + 1` (line 70). -/
def Params.forcedBaseCount (P : Params α) : ℤ := P.forcedTargetIndex + 1

/-- `forcedTailCount = reelItemCount - forcedBaseCount` (line 71). -/
def Params.forcedTailCount (P : Params α) : ℤ :=
  (P.reelItemCount : ℤ) - P.forcedBaseCount

/-- `pickRandom` (lines 78-88): placeholder item on an empty pool, else
`itemsPool[Math.floor(r * itemsPool.length)]` for the draw `r`. -/
def pickRandom (P : Params α) (r : ℚ) : α :=
  if P.pool.length = 0 then P.placeholder
  else P.pool.getD (⌊r * (P.pool.length : ℚ)⌋).toNat P.placeholder

/-- `generateItems` (lines 90-97): `count` fresh `pickRandom` draws, taken
from the stream `rng` starting at position `start`.  A negative `count`
yields the empty list, as the JS `for` loop does. -/
def generateItems (P : Params α) (rng : ℕ → ℚ) (start : ℕ) (count : ℤ) : List α :=
  (List.range count.toNat).map fun i => pickRandom P (rng (start + i))

/-- JS `base[i] = x` followed by array spread: an in-bounds write replaces
the element; a negative-index write creates an object property that the
spread does not see. -/
def setAt (l : List α) (i : ℤ) (x : α) : List α :=
  if 0 ≤ i ∧ i < (l.length : ℤ) then l.set i.toNat x else l

/-- The sequence `updatedItems` built in `spin()` (lines 167-178):
forced spins concatenate a base of `forcedBaseCount` draws, with the
forced item written at `forcedTargetIndex`, and a tail of
`forcedTailCount` draws; unforced spins draw `reelItemCount` items. -/
def buildSequence (P : Params α) (rng : ℕ → ℚ) : List α :=
  match P.forcedResult with
  | some f =>
    let base := generateItems P rng 0 P.forcedBaseCount
    let tail := generateItems P rng base.length P.forcedTailCount
    setAt base P.forcedTargetIndex f ++ tail
  | none => generateItems P rng 0 (P.reelItemCount : ℤ)

/-- `centerIndex = Math.floor(totalItemsCount / 2)` (line 183). -/
def centerIndex (len : ℕ) : ℕ := len / 2

/-- `targetIndex` (line 184): the forced index if forced, else `len - 5`. -/
def targetIndexOf (P : Params α) (len : ℕ) : ℤ :=
  if P.forcedResult.isSome then P.forcedTargetIndex else (len : ℤ) - 5

/-- `randomOffset = (Math.random() - 0.5) * 2 * itemTotal * STOP_OFFSET_RATIO`
(lines 188-189). -/
def randomOffset (P : Params α) (r : ℚ) : ℚ :=
  (r - 1/2) * 2 * P.itemTotal * STOP_OFFSET_RATIO

/-- The jittered stop position for a given center index `c` and target
index `T`: `startTranslate - (T - c) * itemTotal + randomOffset`
(lines 185-190, with `startTranslate = 0`). -/
def translateFor (P : Params α) (c : ℕ) (T : ℤ) (r : ℚ) : ℚ :=
  0 - (((T - (c : ℤ) : ℤ) : ℚ) * P.itemTotal) + randomOffset P r

/-- `targetTranslate` of a spin over a sequence of length `len` (line 190). -/
def targetTranslate (P : Params α) (len : ℕ) (r : ℚ) : ℚ :=
  translateFor P (centerIndex len) (targetIndexOf P len) r

/-- `clampedClosestIndex` (lines 245-259): the forced index clamped to the
sequence, or the rounded index nearest the stopped translate, clamped. -/
def resolveFromTranslate (P : Params α) (len : ℕ) (tt : ℚ) : ℤ :=
  if P.forcedResult.isSome then clampIdx P.forcedTargetIndex ((len : ℤ) - 1)
  else clampIdx (jround ((centerIndex len : ℚ) - tt / P.itemTotal)) ((len : ℤ) - 1)

/-- The end-to-end outcome of one spin's sequence generation and index
resolution: the item handed to `onSpinEnd` (lines 209-214), or `none`
when the bounds check `0 ≤ selectedIndex < updatedItems.length` fails. -/
def spinOutcome (P : Params α) (rng : ℕ → ℚ) (r : ℚ) : Option α :=
  let items := buildSequence P rng
  let idx := resolveFromTranslate P items.length (targetTranslate P items.length r)
  if 0 ≤ idx ∧ idx < (items.length : ℤ) then some (items.getD idx.toNat P.placeholder)
  else none

/-- Validity of the `Math.random()` draws a spin consumes. -/
def ValidDraws (rng : ℕ → ℚ) (r : ℚ) : Prop :=
  (∀ n, 0 ≤ rng n ∧ rng n < 1) ∧ 0 ≤ r ∧ r < 1

/-! ## Temporal model of the spin scheduler -/

/-- Observable callback invocations: `onSpinStart` / `onSpinEnd item`,
tagged with the spin token they belong to. -/
inductive Ev (α : Type) where
  | start (token : ℕ)
  | finish (token : ℕ) (item : α)
deriving DecidableEq

/-- The data a spin's closures capture: its token, `updatedItems` and
`targetTranslate`. -/
structure SpinData (α : Type) where
  token : ℕ
  items : List α
  targetTranslate : ℚ
deriving DecidableEq

/-- A pending `requestAnimationFrame` callback: either the `animate` loop
(capturing `startTime`, line 220) or the `animateTwistBack` loop
(capturing `twistBackStartTime`, `twistBackStartPosition`,
`clampedClosestIndex` and `offsetToPerfect`, lines 261-268). -/
inductive FrameTask (α : Type) where
  | spinPhase (d : SpinData α) (startTime : ℚ)
  | twistPhase (d : SpinData α) (twistStart twistStartPos : ℚ)
      (clampedIdx : ℤ) (offsetToPerfect : ℚ)
deriving DecidableEq

/-- The spin data a frame task carries. -/
def FrameTask.data : FrameTask α → SpinData α
  | .spinPhase d _ => d
  | .twistPhase d _ _ _ _ => d

/-- A pending `setTimeout` continuation that will call `completeOnce`
(`finishTimeoutRef` / `twistFinishTimeoutRef`), due at wall-clock `due`. -/
structure FinTask (α : Type) where
  d : SpinData α
  idx : ℤ
  due : ℚ
deriving DecidableEq

/-- The machine state: the wall clock, the DOM transform position, the
component refs, the pending timer/frame slots, a mount flag and the log
of emitted callbacks with their wall-clock times. -/
structure MState (α : Type) where
  now : ℚ
  pos : ℚ
  isSpinning : Bool
  spinToken : ℕ
  completedToken : Option ℕ
  spinStartedAt : ℚ
  startT : Option (SpinData α)
  animF : Option (FrameTask α)
  finishT : Option (FinTask α)
  twistT : Option (FinTask α)
  mounted : Bool
  events : List (ℚ × Ev α)
deriving DecidableEq

/-- The initial (mounted, idle) state. -/
def init : MState α :=
  { now := 0, pos := 0, isSpinning := false, spinToken := 0,
    completedToken := none, spinStartedAt := 0, startT := none,
    animF := none, finishT := none, twistT := none, mounted := true,
    events := [] }

/-- The body of `spin()` (lines 137-219) run at the current wall time,
with item draws `rng` and stop-jitter draw `r`: a no-op if a spin is live
or the pool is empty; otherwise it marks the spin live, records the start
time, fires `onSpinStart`, cancels all pending frames and timers, mints
the next token, resets the translate, builds the sequence and schedules
the `setTimeout(..., 0)` that starts the frame loop. -/
def spinCall (P : Params α) (rng : ℕ → ℚ) (r : ℚ) (s : MState α) : MState α :=
  if s.isSpinning = true ∨ P.pool.length = 0 then s
  else
    let tok := s.spinToken + 1
    let items := buildSequence P rng
    { s with
      isSpinning := true
      completedToken := none
      spinStartedAt := s.now
      events := s.events ++ [(s.now, Ev.start tok)]
      animF := none
      finishT := none
      twistT := none
      spinToken := tok
      pos := 0
      startT := some ⟨tok, items, targetTranslate P items.length r⟩ }

/-- `completeOnce(selectedIndex)` (lines 194-217): stale-token and
already-completed guards; deferral on `finishTimeoutRef` when the
wall-clock elapsed time is below `minMs`; otherwise mark completed,
fire `onSpinEnd(updatedItems[selectedIndex])` under the bounds check,
and mark the spin not live. -/
def completeOnce (P : Params α) (d : SpinData α) (idx : ℤ) (s : MState α) : MState α :=
  if d.token ≠ s.spinToken then s
  else if s.completedToken = some d.token then s
  else
    let elapsed := s.now - s.spinStartedAt
    if elapsed < P.minMs then
      { s with finishT := some ⟨d, idx, s.now + max 0 (⌈P.minMs - elapsed⌉ : ℤ)⟩ }
    else
      { s with completedToken := some d.token
               isSpinning := false
               events :=
                 if 0 ≤ idx ∧ idx < (d.items.length : ℤ) then
                   s.events ++
                     [(s.now, Ev.finish d.token (d.items.getD idx.toNat P.placeholder))]
                 else s.events }

/-- The `startTimeoutRef` callback (lines 219-309): record `startTime`
from the clock and request the first `animate` frame. -/
def runStart (s : MState α) (d : SpinData α) : MState α :=
  { s with startT := none, animF := some (.spinPhase d s.now) }

/-- One animation-frame callback (`animate`, lines 222-306, or
`animateTwistBack`, lines 270-302): stale-token guard, eased position
update, re-request while progress < 1, and on completion either hand over
to the twist-back phase or schedule `completeOnce` on a 50 ms timer. -/
def runFrame (P : Params α) (s : MState α) (t : FrameTask α) : MState α :=
  match t with
  | .spinPhase d startTime =>
    if d.token ≠ s.spinToken then { s with animF := none }
    else
      let progress := min ((s.now - startTime) / P.duration) 1
      let eased := 1 - (1 - progress)^3
      let cur := 0 + (d.targetTranslate - 0) * eased
      if progress < 1 then
        { s with pos := cur, animF := some (.spinPhase d startTime) }
      else
        let len := d.items.length
        let clamped := resolveFromTranslate P len d.targetTranslate
        let offsetToPerfect :=
          (0 - (((clamped - (centerIndex len : ℤ) : ℤ) : ℚ) * P.itemTotal)) - d.targetTranslate
        { s with pos := cur,
                 animF := some (.twistPhase d s.now d.targetTranslate clamped offsetToPerfect) }
  | .twistPhase d twistStart twistStartPos clamped offset =>
    if d.token ≠ s.spinToken then { s with animF := none }
    else
      let progress := min ((s.now - twistStart) / P.twistDuration) 1
      let eased := 1 - (1 - progress)^3
      let cur := twistStartPos + offset * eased
      if progress < 1 then
        { s with pos := cur, animF := some (.twistPhase d twistStart twistStartPos clamped offset) }
      else
        { s with pos := cur, animF := none,
                 twistT := some ⟨d, clamped, s.now + 50⟩ }

/-- The unmount cleanup effect (lines 327-339): cancel the pending frame
and all three timers, clear the completed token and the live flag. -/
def cleanup (s : MState α) : MState α :=
  { s with mounted := false, startT := none, animF := none,
           finishT := none, twistT := none,
           completedToken := none, isSpinning := false }

/-- One host-scheduler step: the wall clock advances, `spin()` is called,
a pending timer fires (no earlier than its due time), a pending animation
frame fires, or the component unmounts. -/
inductive Step (P : Params α) : MState α → MState α → Prop where
  | tick (s : MState α) (t : ℚ) : s.now ≤ t → Step P s { s with now := t }
  | spin (s : MState α) (rng : ℕ → ℚ) (r : ℚ) :
      s.mounted = true → ValidDraws rng r → Step P s (spinCall P rng r s)
  | startFire (s : MState α) (d : SpinData α) :
      s.startT = some d → Step P s (runStart s d)
  | frameFire (s : MState α) (t : FrameTask α) :
      s.animF = some t → Step P s (runFrame P s t)
  | finishFire (s : MState α) (f : FinTask α) :
      s.finishT = some f → f.due ≤ s.now →
      Step P s (completeOnce P f.d f.idx { s with finishT := none })
  | twistFire (s : MState α) (f : FinTask α) :
      s.twistT = some f → f.due ≤ s.now →
      Step P s (completeOnce P f.d f.idx { s with twistT := none })
  | unmount (s : MState α) : s.mounted = true → Step P s (cleanup s)

/-- States reachable from the freshly mounted component. -/
def Reachable (P : Params α) (s : MState α) : Prop :=
  Relation.ReflTransGen (Step P) init s

/-- Whether an event-log entry is an `onSpinEnd` for token `k`. -/
def isEndOf (k : ℕ) : ℚ × Ev α → Bool :=
  fun e => match e.2 with
  | .finish k' _ => k' = k
  | _ => false

/-- How many `onSpinEnd` callbacks for token `k` a log records. -/
def countEnd (k : ℕ) (evs : List (ℚ × Ev α)) : ℕ := evs.countP (isEndOf k)

/-- Modelled from the spec, §4.2: the cubic ease-out curve
`ease(p) = 1 - (1-p)^3`. -/
def specEase (p : ℚ) : ℚ := 1 - (1 - p)^3

/-- Modelled from the spec, §4.2: the motion law
`position(t) = start + (target - start) * ease(min(t/duration, 1))`. -/
def specPosition (start target t dur : ℚ) : ℚ :=
  start + (target - start) * specEase (min (t / dur) 1)

/-- The token an event belongs to. -/
def evToken : Ev α → ℕ
  | .start k => k
  | .finish k _ => k

/-- A spin's captured data is consistent with some valid draws: its items
are a generated sequence and its stop target the jittered translate for
those draws. -/
def DataOk (P : Params α) (d : SpinData α) : Prop :=
  ∃ rng r, ValidDraws rng r ∧ d.items = buildSequence P rng ∧
    d.targetTranslate = targetTranslate P d.items.length r

/-- A pending completion timer carries consistent data and the index the
frame loop resolved for that data. -/
def FinOk (P : Params α) (f : FinTask α) : Prop :=
  DataOk P f.d ∧
    f.idx = resolveFromTranslate P f.d.items.length f.d.targetTranslate

/-- A pending animation frame carries consistent data; a twist-back frame
additionally carries the index the spin phase resolved. -/
def FrameOk (P : Params α) : FrameTask α → Prop
  | .spinPhase d _ => DataOk P d
  | .twistPhase d _ _ ci _ =>
      DataOk P d ∧ ci = resolveFromTranslate P d.items.length d.targetTranslate

/-- The reachability invariant of the scheduler. -/
structure Inv (P : Params α) (s : MState α) : Prop where
  endAtMostOne : ∀ k, countEnd k s.events ≤ 1
  evTok : ∀ e ∈ s.events, evToken e.2 ≤ s.spinToken
  endCompleted : ∀ t k x, (t, Ev.finish k x) ∈ s.events → k = s.spinToken →
      s.mounted = true → s.completedToken = some k
  startOk : ∀ d, s.startT = some d → DataOk P d
  animOk : ∀ ft, s.animF = some ft → FrameOk P ft
  finOk : ∀ f, s.finishT = some f → FinOk P f
  twistOk : ∀ f, s.twistT = some f → FinOk P f
  startEv : ∀ d, s.startT = some d → d.token = s.spinToken →
      (s.spinStartedAt, Ev.start s.spinToken) ∈ s.events
  animEv : ∀ ft, s.animF = some ft → (FrameTask.data ft).token = s.spinToken →
      (s.spinStartedAt, Ev.start s.spinToken) ∈ s.events
  finEv : ∀ f, s.finishT = some f → f.d.token = s.spinToken →
      (s.spinStartedAt, Ev.start s.spinToken) ∈ s.events
  twistEv : ∀ f, s.twistT = some f → f.d.token = s.spinToken →
      (s.spinStartedAt, Ev.start s.spinToken) ∈ s.events
  timing : ∀ t k x, (t, Ev.finish k x) ∈ s.events →
      ∃ t0, (t0, Ev.start k) ∈ s.events ∧ t0 + P.minMs ≤ t
  finDue : ∀ f, s.finishT = some f → f.d.token = s.spinToken →
      s.spinStartedAt + P.minMs ≤ f.due
  unm : s.mounted = false → s.startT = none ∧ s.animF = none ∧
      s.finishT = none ∧ s.twistT = none
  evItem : ∀ t k x, (t, Ev.finish k x) ∈ s.events →
      ∃ rng r, ValidDraws rng r ∧ spinOutcome P rng r = some x

/-- A concrete unforced configuration: pool `[7]`, duration 2500 ms,
twist 400 ms, six reel items, item size 80, gap 20. -/
def demoParams : Params ℕ := ⟨[7], 0, none, 2500, 400, 6, 3, 80, 20⟩

/-- `demoParams` with the forced result `99` at index 3. -/
def demoForced : Params ℕ := ⟨[7], 0, some 99, 2500, 400, 6, 3, 80, 20⟩

/-- A configuration with an empty item pool. -/
def demoEmpty : Params ℕ := ⟨[], 0, none, 2500, 400, 6, 3, 80, 20⟩

/-- A forced configuration whose `forcedTargetIndex` is `-1`, outside
`[0, reelItemCount)`. -/
def demoNegIdx : Params ℕ := ⟨[7], 0, some 99, 2500, 400, 3, -1, 80, 20⟩

/-! ## Helper lemmas -/

lemma pickRandom_mem (P : Params α) (r : ℚ) (hp : P.pool ≠ [])
    (h0 : 0 ≤ r) (h1 : r < 1) : pickRandom P r ∈ P.pool := by
  have hlen : P.pool.length ≠ 0 := by simpa using hp
  have hlpos : (0 : ℚ) < (P.pool.length : ℚ) := by
    exact_mod_cast Nat.pos_of_ne_zero hlen
  have hfl0 : 0 ≤ ⌊r * (P.pool.length : ℚ)⌋ :=
    Int.floor_nonneg.2 (mul_nonneg h0 hlpos.le)
  have hflt : ⌊r * (P.pool.length : ℚ)⌋ < (P.pool.length : ℤ) := by
    apply Int.floor_lt.2
    calc r * (P.pool.length : ℚ) < 1 * (P.pool.length : ℚ) := by
          exact mul_lt_mul_of_pos_right h1 hlpos
      _ = ((P.pool.length : ℤ) : ℚ) := by push_cast; ring
  have hnat : (⌊r * (P.pool.length : ℚ)⌋).toNat < P.pool.length := by omega
  rw [pickRandom, if_neg hlen, List.getD_eq_getElem?_getD,
    List.getElem?_eq_getElem hnat]
  exact List.getElem_mem hnat

lemma generateItems_length (P : Params α) (rng : ℕ → ℚ) (start : ℕ) (count : ℤ) :
    (generateItems P rng start count).length = count.toNat := by
  simp [generateItems]

lemma generateItems_mem (P : Params α) (rng : ℕ → ℚ) (start : ℕ) (count : ℤ)
    (hp : P.pool ≠ []) (hrng : ∀ n, 0 ≤ rng n ∧ rng n < 1) :
    ∀ x ∈ generateItems P rng start count, x ∈ P.pool := by
  intro x hx
  simp only [generateItems, List.mem_map] at hx
  obtain ⟨i, -, rfl⟩ := hx
  exact pickRandom_mem P _ hp (hrng _).1 (hrng _).2

lemma setAt_length (l : List α) (i : ℤ) (x : α) : (setAt l i x).length = l.length := by
  unfold setAt
  split <;> simp

lemma buildSequence_length_none (P : Params α) (rng : ℕ → ℚ)
    (hf : P.forcedResult = none) :
    (buildSequence P rng).length = P.reelItemCount := by
  simp [buildSequence, hf, generateItems_length]

lemma buildSequence_length_forced (P : Params α) (rng : ℕ → ℚ) (f : α)
    (hf : P.forcedResult = some f) (h0 : 0 ≤ P.forcedTargetIndex)
    (hle : P.forcedTargetIndex + 1 ≤ (P.reelItemCount : ℤ)) :
    (buildSequence P rng).length = P.reelItemCount := by
  simp only [buildSequence, hf, List.length_append, setAt_length,
    generateItems_length, Params.forcedTailCount, Params.forcedBaseCount]
  omega

lemma buildSequence_forced_get (P : Params α) (rng : ℕ → ℚ) (f : α)
    (hf : P.forcedResult = some f) (h0 : 0 ≤ P.forcedTargetIndex)
    (hle : P.forcedTargetIndex + 1 ≤ (P.reelItemCount : ℤ)) :
    (buildSequence P rng)[P.forcedTargetIndex.toNat]? = some f := by
  have hbase : (generateItems P rng 0 P.forcedBaseCount).length
      = P.forcedTargetIndex.toNat + 1 := by
    rw [generateItems_length]; unfold Params.forcedBaseCount; omega
  have hlt : P.forcedTargetIndex.toNat
      < (generateItems P rng 0 P.forcedBaseCount).length := by omega
  have hin : 0 ≤ P.forcedTargetIndex ∧ P.forcedTargetIndex
      < ((generateItems P rng 0 P.forcedBaseCount).length : ℤ) := by
    constructor
    · exact h0
    · omega
  simp only [buildSequence, hf]
  rw [List.getElem?_append_left (by rw [setAt_length]; exact hlt),
    setAt, if_pos hin, List.getElem?_set_self (by omega)]

lemma buildSequence_mem_none (P : Params α) (rng : ℕ → ℚ)
    (hf : P.forcedResult = none) (hp : P.pool ≠ [])
    (hrng : ∀ n, 0 ≤ rng n ∧ rng n < 1) :
    ∀ x ∈ buildSequence P rng, x ∈ P.pool := by
  intro x hx
  rw [buildSequence, hf] at hx
  exact generateItems_mem P rng 0 _ hp hrng x hx

lemma resolve_bounds (P : Params α) (len : ℕ) (tt : ℚ) (hlen : 1 ≤ len) :
    0 ≤ resolveFromTranslate P len tt ∧
      resolveFromTranslate P len tt < (len : ℤ) := by
  unfold resolveFromTranslate clampIdx
  split <;> omega

lemma jround_sub_eq (T : ℤ) (δ : ℚ) (hl : -(1/2) < δ) (hr : δ ≤ 1/2) :
    jround ((T : ℚ) - δ) = T := by
  unfold jround
  rw [Int.floor_eq_iff]
  constructor
  · linarith
  · linarith

lemma randomOffset_div (P : Params α) (r : ℚ) (hit : P.itemTotal ≠ 0) :
    randomOffset P r / P.itemTotal = (r - 1/2) * 2 * STOP_OFFSET_RATIO := by
  unfold randomOffset
  field_simp
  ring

lemma randomOffset_abs_le (P : Params α) (r : ℚ) (h0 : 0 ≤ r) (h1 : r < 1)
    (hit : 0 ≤ P.itemTotal) :
    |randomOffset P r| ≤ STOP_OFFSET_RATIO * P.itemTotal := by
  rw [abs_le]
  unfold randomOffset STOP_OFFSET_RATIO
  constructor <;> nlinarith

lemma randomOffset_abs_lt_half (P : Params α) (r : ℚ) (h0 : 0 ≤ r) (h1 : r < 1)
    (hit : 0 < P.itemTotal) :
    |randomOffset P r| < P.itemTotal / 2 := by
  rw [abs_lt]
  unfold randomOffset STOP_OFFSET_RATIO
  constructor <;> nlinarith

lemma round_at_translateFor (P : Params α) (c : ℕ) (T : ℤ) (r : ℚ)
    (h0 : 0 ≤ r) (h1 : r < 1) (hit : 0 < P.itemTotal) :
    jround ((c : ℚ) - translateFor P c T r / P.itemTotal) = T := by
  have hne : P.itemTotal ≠ 0 := ne_of_gt hit
  have hδ : (c : ℚ) - translateFor P c T r / P.itemTotal
      = (T : ℚ) - (r - 1/2) * 2 * STOP_OFFSET_RATIO := by
    unfold translateFor randomOffset STOP_OFFSET_RATIO
    field_simp
    ring
  rw [hδ]
  apply jround_sub_eq
  · unfold STOP_OFFSET_RATIO; linarith
  · unfold STOP_OFFSET_RATIO; linarith

lemma spinOutcome_forced (P : Params α) (f : α) (rng : ℕ → ℚ) (r : ℚ)
    (hf : P.forcedResult = some f) (h0 : 0 ≤ P.forcedTargetIndex)
    (hle : P.forcedTargetIndex + 1 ≤ (P.reelItemCount : ℤ)) :
    spinOutcome P rng r = some f := by
  have hlen := buildSequence_length_forced P rng f hf h0 hle
  have hsome : P.forcedResult.isSome = true := by rw [hf]; rfl
  have hres : resolveFromTranslate P (buildSequence P rng).length
      (targetTranslate P (buildSequence P rng).length r) = P.forcedTargetIndex := by
    rw [resolveFromTranslate, if_pos hsome, clampIdx, hlen]
    omega
  have hbound : 0 ≤ P.forcedTargetIndex ∧
      P.forcedTargetIndex < ((buildSequence P rng).length : ℤ) := by
    rw [hlen]; omega
  rw [spinOutcome]
  simp only [hres, if_pos hbound]
  rw [List.getD_eq_getElem?_getD, buildSequence_forced_get P rng f hf h0 hle]
  rfl

lemma spinOutcome_none_mem (P : Params α) (rng : ℕ → ℚ) (r : ℚ) (x : α)
    (hf : P.forcedResult = none) (hp : P.pool ≠ [])
    (hrng : ∀ n, 0 ≤ rng n ∧ rng n < 1)
    (hx : spinOutcome P rng r = some x) : x ∈ P.pool := by
  rw [spinOutcome] at hx
  set items := buildSequence P rng with hitems
  set idx := resolveFromTranslate P items.length (targetTranslate P items.length r)
  split at hx
  case isTrue h =>
    have hlt : idx.toNat < items.length := by omega
    rw [List.getD_eq_getElem?_getD, List.getElem?_eq_getElem hlt] at hx
    have hmem : items[idx.toNat] ∈ items := List.getElem_mem hlt
    obtain rfl : items[idx.toNat] = x := by simpa using hx
    exact buildSequence_mem_none P rng hf hp hrng _ hmem
  case isFalse h => exact absurd hx (by simp)

/-! ## Claim theorems (pure layer) -/

/-- **C6** (code bug evidence): with `forcedTargetIndex = -1`, outside
`[0, reelItemCount)`, the engine does not clamp the index when building
the sequence: the forced item `99` is dropped entirely (the JS write
`base[-1] = forced` creates an invisible property), the reel shows only
random pool items, and the spin resolves to a random pool item `7`
instead of the forced item at the clamped index `0`. -/
theorem forced_negative_index_drops_forced_item :
    buildSequence demoNegIdx (fun _ => 0) = [7, 7, 7] ∧
    spinOutcome demoNegIdx (fun _ => 0) 0 = some 7 ∧
    99 ∉ buildSequence demoNegIdx (fun _ => 0) := by
  have hbs : buildSequence demoNegIdx (fun _ => 0) = [7, 7, 7] := by
    simp only [buildSequence, demoNegIdx, generateItems, setAt,
      Params.forcedBaseCount, Params.forcedTailCount]
    norm_num [pickRandom, List.range_succ]
    decide
  refine ⟨hbs, ?_, by rw [hbs]; decide⟩
  simp only [spinOutcome, hbs]
  norm_num [resolveFromTranslate, demoNegIdx, clampIdx, min_def, max_def]

/-- **C8**: the random jitter added to the spin-phase stop position is
bounded by `STOP_OFFSET_RATIO = 0.49` of one item's pixel footprint
`itemTotal`, and rounding the jittered stop position back to an index
always yields the chosen target index `T`, for every center index `c`,
every target index and every draw `r ∈ [0, 1)`. -/
theorem jitter_bounded_and_never_shifts_index (P : Params α) (c : ℕ) (T : ℤ)
    (r : ℚ) (h0 : 0 ≤ r) (h1 : r < 1) (hit : 0 < P.itemTotal) :
    |randomOffset P r| ≤ STOP_OFFSET_RATIO * P.itemTotal ∧
    jround ((c : ℚ) - translateFor P c T r / P.itemTotal) = T :=
  ⟨randomOffset_abs_le P r h0 h1 hit.le,
   round_at_translateFor P c T r h0 h1 hit⟩

/-- **C9**: both motion phases of the frame loop drive the position by the
same pure easing law `position(t) = start + (target - start) *
ease(min(t/duration, 1))` with `ease(p) = 1 - (1-p)^3`: the spin phase
from start `0` toward `targetTranslate` over `duration`, and the
twist-back phase from the jittered stop toward the perfect position over
`twistDuration`. -/
theorem both_phases_use_cubic_ease_out_law (P : Params α) (s : MState α)
    (d : SpinData α) (st ts sp off : ℚ) (ci : ℤ)
    (htok : d.token = s.spinToken) :
    (runFrame P s (.spinPhase d st)).pos
        = specPosition 0 d.targetTranslate (s.now - st) P.duration ∧
    (runFrame P s (.twistPhase d ts sp ci off)).pos
        = specPosition sp (sp + off) (s.now - ts) P.twistDuration ∧
    ∀ p : ℚ, specEase p = 1 - (1 - p)^3 := by
  refine ⟨?_, ?_, fun p => rfl⟩
  · rw [runFrame, if_neg (by simp [htok])]
    dsimp only
    split <;> simp only [specPosition, specEase, inf_eq_min]
  · rw [runFrame, if_neg (by simp [htok])]
    dsimp only
    split <;> simp only [specPosition, specEase, inf_eq_min] <;> ring

/-- **C10** (implicit): for every unforced spin the resolved landing index
is deterministic despite the jitter — it equals `reelItemCount - 5`
clamped into `[0, reelItemCount - 1]` for every draw `r ∈ [0, 1)` — the
sequence has length `reelItemCount`, and the jitter magnitude is strictly
below half an item footprint, so the half-item rounding ambiguity never
occurs. -/
theorem unforced_landing_index_deterministic (P : Params α) (rng : ℕ → ℚ)
    (r : ℚ) (hf : P.forcedResult = none)
    (hit : 0 < P.itemTotal) (h0 : 0 ≤ r) (h1 : r < 1) :
    (buildSequence P rng).length = P.reelItemCount ∧
    resolveFromTranslate P P.reelItemCount (targetTranslate P P.reelItemCount r)
      = max 0 (min ((P.reelItemCount : ℤ) - 5) ((P.reelItemCount : ℤ) - 1)) ∧
    |randomOffset P r| < P.itemTotal / 2 := by
  refine ⟨buildSequence_length_none P rng hf, ?_, randomOffset_abs_lt_half P r h0 h1 hit⟩
  have hnone : P.forcedResult.isSome = false := by rw [hf]; rfl
  rw [resolveFromTranslate, if_neg (by simp [hnone]), targetTranslate,
    targetIndexOf, if_neg (by simp [hnone]),
    round_at_translateFor P _ _ r h0 h1 hit]
  rfl

/-! ## Event-log counting lemmas -/

lemma countEnd_append (k : ℕ) (l1 l2 : List (ℚ × Ev α)) :
    countEnd k (l1 ++ l2) = countEnd k l1 + countEnd k l2 :=
  List.countP_append _ _ _

lemma countEnd_single_start (k j : ℕ) (t : ℚ) :
    countEnd k [((t, Ev.start j) : ℚ × Ev α)] = 0 := by
  simp [countEnd, List.countP_cons, isEndOf]

lemma countEnd_single_finish (k j : ℕ) (t : ℚ) (x : α) :
    countEnd k [(t, Ev.finish j x)] = if j = k then 1 else 0 := by
  by_cases h : j = k <;> simp [countEnd, List.countP_cons, isEndOf, h]

lemma countEnd_pos_of_mem {k : ℕ} {t : ℚ} {x : α} {evs : List (ℚ × Ev α)}
    (h : (t, Ev.finish k x) ∈ evs) : 1 ≤ countEnd k evs := by
  have : 0 < evs.countP (isEndOf k) :=
    List.countP_pos_iff.2 ⟨_, h, by simp [isEndOf]⟩
  simpa [countEnd] using this

lemma exists_finish_of_countEnd_pos {k : ℕ} {evs : List (ℚ × Ev α)}
    (h : 1 ≤ countEnd k evs) : ∃ t x, (t, Ev.finish k x) ∈ evs := by
  have : 0 < evs.countP (isEndOf k) := by simpa [countEnd] using h
  obtain ⟨⟨t, e⟩, hmem, he⟩ := List.countP_pos_iff.1 this
  cases e with
  | start j => simp [isEndOf] at he
  | finish j x =>
      simp only [isEndOf, decide_eq_true_eq] at he
      exact ⟨t, x, he ▸ hmem⟩

/-! ## Invariant: initial state and erasure -/

lemma inv_init (P : Params α) : Inv P (init (α := α)) := by
  constructor <;> simp [init, countEnd]

lemma inv_eraseFin {P : Params α} {s : MState α} (hI : Inv P s) :
    Inv P { s with finishT := none } := by
  refine ⟨hI.endAtMostOne, hI.evTok, hI.endCompleted, hI.startOk, hI.animOk,
    ?_, hI.twistOk, hI.startEv, hI.animEv, ?_, hI.twistEv, hI.timing, ?_, ?_,
    hI.evItem⟩
  · intro f hf; exact nomatch hf
  · intro f hf; exact nomatch hf
  · intro f hf; exact nomatch hf
  · intro hm
    obtain ⟨h1, h2, _, h4⟩ := hI.unm hm
    exact ⟨h1, h2, rfl, h4⟩

lemma inv_eraseTwist {P : Params α} {s : MState α} (hI : Inv P s) :
    Inv P { s with twistT := none } := by
  refine ⟨hI.endAtMostOne, hI.evTok, hI.endCompleted, hI.startOk, hI.animOk,
    hI.finOk, ?_, hI.startEv, hI.animEv, hI.finEv, ?_, hI.timing, hI.finDue,
    ?_, hI.evItem⟩
  · intro f hf; exact nomatch hf
  · intro f hf; exact nomatch hf
  · intro hm
    obtain ⟨h1, h2, h3, _⟩ := hI.unm hm
    exact ⟨h1, h2, h3, rfl⟩

lemma inv_eraseAnim {P : Params α} {s : MState α} (hI : Inv P s) :
    Inv P { s with animF := none } := by
  refine ⟨hI.endAtMostOne, hI.evTok, hI.endCompleted, hI.startOk, ?_,
    hI.finOk, hI.twistOk, hI.startEv, ?_, hI.finEv, hI.twistEv, hI.timing,
    hI.finDue, ?_, hI.evItem⟩
  · intro ft hft; exact nomatch hft
  · intro ft hft; exact nomatch hft
  · intro hm
    obtain ⟨h1, _, h3, h4⟩ := hI.unm hm
    exact ⟨h1, rfl, h3, h4⟩

lemma mounted_of_startT {P : Params α} {s : MState α} {d : SpinData α}
    (hI : Inv P s) (h : s.startT = some d) : s.mounted = true := by
  cases hmt : s.mounted
  · rw [(hI.unm hmt).1] at h; exact nomatch h
  · rfl

lemma mounted_of_animF {P : Params α} {s : MState α} {ft : FrameTask α}
    (hI : Inv P s) (h : s.animF = some ft) : s.mounted = true := by
  cases hmt : s.mounted
  · rw [(hI.unm hmt).2.1] at h; exact nomatch h
  · rfl

lemma mounted_of_finishT {P : Params α} {s : MState α} {f : FinTask α}
    (hI : Inv P s) (h : s.finishT = some f) : s.mounted = true := by
  cases hmt : s.mounted
  · rw [(hI.unm hmt).2.2.1] at h; exact nomatch h
  · rfl

lemma mounted_of_twistT {P : Params α} {s : MState α} {f : FinTask α}
    (hI : Inv P s) (h : s.twistT = some f) : s.mounted = true := by
  cases hmt : s.mounted
  · rw [(hI.unm hmt).2.2.2] at h; exact nomatch h
  · rfl

lemma inv_completeOnce {P : Params α} {s : MState α} {d : SpinData α} {idx : ℤ}
    (hI : Inv P s) (hd : DataOk P d)
    (hidx : idx = resolveFromTranslate P d.items.length d.targetTranslate)
    (hEv : d.token = s.spinToken →
      (s.spinStartedAt, Ev.start s.spinToken) ∈ s.events)
    (hm : s.mounted = true) :
    Inv P (completeOnce P d idx s) := by
  unfold completeOnce
  by_cases h1 : d.token ≠ s.spinToken
  · rw [if_pos h1]; exact hI
  rw [if_neg h1]
  have htok : d.token = s.spinToken := not_not.mp h1
  by_cases h2 : s.completedToken = some d.token
  · rw [if_pos h2]; exact hI
  rw [if_neg h2]
  dsimp only
  by_cases h3 : s.now - s.spinStartedAt < P.minMs
  · rw [if_pos h3]
    refine ⟨hI.endAtMostOne, hI.evTok, hI.endCompleted, hI.startOk, hI.animOk,
      ?_, hI.twistOk, hI.startEv, hI.animEv, ?_, hI.twistEv, hI.timing, ?_,
      ?_, hI.evItem⟩
    · intro f hf; cases hf; exact ⟨hd, hidx⟩
    · intro f hf htk; cases hf; exact hEv htk
    · intro f hf htk
      cases hf
      have hceil : P.minMs - (s.now - s.spinStartedAt) ≤
          ((⌈P.minMs - (s.now - s.spinStartedAt)⌉ : ℤ) : ℚ) := Int.le_ceil _
      have hmax : ((⌈P.minMs - (s.now - s.spinStartedAt)⌉ : ℤ) : ℚ) ≤
          (((0 : ℤ) ⊔ ⌈P.minMs - (s.now - s.spinStartedAt)⌉ : ℤ) : ℚ) :=
        Int.cast_le.mpr le_sup_right
      dsimp only
      linarith
    · intro hmf; rw [hm] at hmf; exact nomatch hmf
  · rw [if_neg h3]
    by_cases hb : 0 ≤ idx ∧ idx < (d.items.length : ℤ)
    · rw [if_pos hb]
      refine ⟨?_, ?_, ?_, hI.startOk, hI.animOk, hI.finOk, hI.twistOk, ?_,
        ?_, ?_, ?_, ?_, hI.finDue, ?_, ?_⟩
      · intro k
        rw [countEnd_append, countEnd_single_finish]
        by_cases hk : d.token = k
        · have h0 : countEnd k s.events = 0 := by
            by_contra hnz
            have h1le : 1 ≤ countEnd k s.events := by omega
            obtain ⟨t, x, hmem⟩ := exists_finish_of_countEnd_pos h1le
            have hcomp := hI.endCompleted t k x hmem (by omega) hm
            rw [hk] at h2
            exact h2 hcomp
          simp [hk, h0]
        · simp only [if_neg hk, Nat.add_zero]
          exact hI.endAtMostOne k
      · intro e he
        rcases List.mem_append.1 he with h | h
        · exact hI.evTok e h
        · rw [List.mem_singleton] at h
          subst h
          simp [evToken, htok]
      · intro t k x _ hk _
        rw [hk, ← htok]
      · intro dd hdd htk
        exact List.mem_append_left _ (hI.startEv dd hdd htk)
      · intro ft hft htk
        exact List.mem_append_left _ (hI.animEv ft hft htk)
      · intro f hf htk
        exact List.mem_append_left _ (hI.finEv f hf htk)
      · intro f hf htk
        exact List.mem_append_left _ (hI.twistEv f hf htk)
      · intro t k x hmem
        rcases List.mem_append.1 hmem with h | h
        · obtain ⟨t0, h0, hble⟩ := hI.timing t k x h
          exact ⟨t0, List.mem_append_left _ h0, hble⟩
        · rw [List.mem_singleton, Prod.mk.injEq] at h
          obtain ⟨rfl, he⟩ := h
          obtain ⟨rfl, -⟩ := Ev.finish.inj he.symm
          refine ⟨s.spinStartedAt,
            List.mem_append_left _ (htok ▸ hEv htok), ?_⟩
          linarith
      · intro hmf; rw [hm] at hmf; exact nomatch hmf
      · intro t k x hmem
        rcases List.mem_append.1 hmem with h | h
        · exact hI.evItem t k x h
        · rw [List.mem_singleton, Prod.mk.injEq] at h
          obtain ⟨rfl, he⟩ := h
          obtain ⟨-, rfl⟩ := Ev.finish.inj he.symm
          obtain ⟨rng, r, hv, hitems, htt⟩ := hd
          refine ⟨rng, r, hv, ?_⟩
          simp only [spinOutcome]
          rw [← hitems, ← htt, ← hidx, if_pos hb]
    · rw [if_neg hb]
      refine ⟨hI.endAtMostOne, hI.evTok, ?_, hI.startOk, hI.animOk, hI.finOk,
        hI.twistOk, hI.startEv, hI.animEv, hI.finEv, hI.twistEv, hI.timing,
        hI.finDue, ?_, hI.evItem⟩
      · intro t k x _ hk _
        rw [hk, ← htok]
      · intro hmf; rw [hm] at hmf; exact nomatch hmf

lemma inv_spinCall {P : Params α} {s : MState α} (rng : ℕ → ℚ) (r : ℚ)
    (hI : Inv P s) (hm : s.mounted = true) (hv : ValidDraws rng r) :
    Inv P (spinCall P rng r s) := by
  unfold spinCall
  by_cases hg : s.isSpinning = true ∨ P.pool.length = 0
  · rw [if_pos hg]; exact hI
  rw [if_neg hg]
  dsimp only
  refine ⟨?_, ?_, ?_, ?_, ?_, ?_, ?_, ?_, ?_, ?_, ?_, ?_, ?_, ?_, ?_⟩
  · intro k
    rw [countEnd_append, countEnd_single_start]
    simpa using hI.endAtMostOne k
  · intro e he
    rcases List.mem_append.1 he with h | h
    · exact (hI.evTok e h).trans (Nat.le_succ _)
    · rw [List.mem_singleton] at h
      subst h
      simp [evToken]
  · intro t k x hmem hk _
    rcases List.mem_append.1 hmem with h | h
    · have hle := hI.evTok _ h
      simp only [evToken] at hle
      have hk' : k = s.spinToken + 1 := hk
      exact ((by omega : False)).elim
    · rw [List.mem_singleton] at h
      exact nomatch (Prod.mk.injEq .. ▸ h).2
  · intro dd hdd
    cases hdd
    exact ⟨rng, r, hv, rfl, rfl⟩
  · intro ft hft; exact nomatch hft
  · intro f hf; exact nomatch hf
  · intro f hf; exact nomatch hf
  · intro dd hdd htk
    exact List.mem_append_right _ (List.mem_singleton.2 rfl)
  · intro ft hft; exact nomatch hft
  · intro f hf; exact nomatch hf
  · intro f hf; exact nomatch hf
  · intro t k x hmem
    rcases List.mem_append.1 hmem with h | h
    · obtain ⟨t0, h0, hb⟩ := hI.timing t k x h
      exact ⟨t0, List.mem_append_left _ h0, hb⟩
    · rw [List.mem_singleton] at h
      exact nomatch (Prod.mk.injEq .. ▸ h).2
  · intro f hf; exact nomatch hf
  · intro hmf; rw [hm] at hmf; exact nomatch hmf
  · intro t k x hmem
    rcases List.mem_append.1 hmem with h | h
    · exact hI.evItem t k x h
    · rw [List.mem_singleton] at h
      exact nomatch (Prod.mk.injEq .. ▸ h).2

lemma inv_runStart {P : Params α} {s : MState α} {d : SpinData α}
    (hI : Inv P s) (hd : s.startT = some d) :
    Inv P (runStart s d) := by
  have hm := mounted_of_startT hI hd
  unfold runStart
  refine ⟨hI.endAtMostOne, hI.evTok, hI.endCompleted, ?_, ?_, hI.finOk,
    hI.twistOk, ?_, ?_, hI.finEv, hI.twistEv, hI.timing, hI.finDue, ?_,
    hI.evItem⟩
  · intro dd hdd; exact nomatch hdd
  · intro ft hft
    cases hft
    exact hI.startOk d hd
  · intro dd hdd; exact nomatch hdd
  · intro ft hft htk
    cases hft
    exact hI.startEv d hd htk
  · intro hmf
    rw [hm] at hmf
    exact nomatch hmf

lemma inv_runFrame {P : Params α} {s : MState α} {t : FrameTask α}
    (hI : Inv P s) (ht : s.animF = some t) :
    Inv P (runFrame P s t) := by
  have hm := mounted_of_animF hI ht
  have hOk := hI.animOk t ht
  cases t with
  | spinPhase d st =>
    rw [runFrame]
    by_cases h1 : d.token ≠ s.spinToken
    · rw [if_pos h1]; exact inv_eraseAnim hI
    rw [if_neg h1]
    dsimp only
    by_cases h2 : min ((s.now - st) / P.duration) 1 < 1
    · rw [if_pos h2]
      refine ⟨hI.endAtMostOne, hI.evTok, hI.endCompleted, hI.startOk, ?_,
        hI.finOk, hI.twistOk, hI.startEv, ?_, hI.finEv, hI.twistEv,
        hI.timing, hI.finDue, ?_, hI.evItem⟩
      · intro ft hft; cases hft; exact hOk
      · intro ft hft htk; cases hft; exact hI.animEv _ ht htk
      · intro hmf; rw [hm] at hmf; exact nomatch hmf
    · rw [if_neg h2]
      refine ⟨hI.endAtMostOne, hI.evTok, hI.endCompleted, hI.startOk, ?_,
        hI.finOk, hI.twistOk, hI.startEv, ?_, hI.finEv, hI.twistEv,
        hI.timing, hI.finDue, ?_, hI.evItem⟩
      · intro ft hft; cases hft; exact ⟨hOk, rfl⟩
      · intro ft hft htk; cases hft; exact hI.animEv _ ht htk
      · intro hmf; rw [hm] at hmf; exact nomatch hmf
  | twistPhase d ts sp ci off =>
    rw [runFrame]
    by_cases h1 : d.token ≠ s.spinToken
    · rw [if_pos h1]; exact inv_eraseAnim hI
    rw [if_neg h1]
    dsimp only
    by_cases h2 : min ((s.now - ts) / P.twistDuration) 1 < 1
    · rw [if_pos h2]
      refine ⟨hI.endAtMostOne, hI.evTok, hI.endCompleted, hI.startOk, ?_,
        hI.finOk, hI.twistOk, hI.startEv, ?_, hI.finEv, hI.twistEv,
        hI.timing, hI.finDue, ?_, hI.evItem⟩
      · intro ft hft; cases hft; exact hOk
      · intro ft hft htk; cases hft; exact hI.animEv _ ht htk
      · intro hmf; rw [hm] at hmf; exact nomatch hmf
    · rw [if_neg h2]
      refine ⟨hI.endAtMostOne, hI.evTok, hI.endCompleted, hI.startOk, ?_,
        hI.finOk, ?_, hI.startEv, ?_, hI.finEv, ?_, hI.timing, hI.finDue,
        ?_, hI.evItem⟩
      · intro ft hft; exact nomatch hft
      · intro f hf; cases hf; exact ⟨hOk.1, hOk.2⟩
      · intro ft hft; exact nomatch hft
      · intro f hf htk; cases hf; exact hI.animEv _ ht htk
      · intro hmf; rw [hm] at hmf; exact nomatch hmf

lemma inv_cleanup {P : Params α} {s : MState α} (hI : Inv P s) :
    Inv P (cleanup s) := by
  refine ⟨hI.endAtMostOne, hI.evTok, ?_, ?_, ?_, ?_, ?_, ?_, ?_, ?_, ?_,
    hI.timing, ?_, ?_, hI.evItem⟩
  · intro t k x _ _ hmt; exact nomatch hmt
  · intro dd hdd; exact nomatch hdd
  · intro ft hft; exact nomatch hft
  · intro f hf; exact nomatch hf
  · intro f hf; exact nomatch hf
  · intro dd hdd; exact nomatch hdd
  · intro ft hft; exact nomatch hft
  · intro f hf; exact nomatch hf
  · intro f hf; exact nomatch hf
  · intro f hf; exact nomatch hf
  · intro _; exact ⟨rfl, rfl, rfl, rfl⟩

theorem inv_step {P : Params α} {s s' : MState α} (hI : Inv P s)
    (hst : Step P s s') : Inv P s' := by
  cases hst with
  | tick t ht =>
    exact ⟨hI.endAtMostOne, hI.evTok, hI.endCompleted, hI.startOk, hI.animOk,
      hI.finOk, hI.twistOk, hI.startEv, hI.animEv, hI.finEv, hI.twistEv,
      hI.timing, hI.finDue, hI.unm, hI.evItem⟩
  | spin rng r hm hv => exact inv_spinCall rng r hI hm hv
  | startFire d hd => exact inv_runStart hI hd
  | frameFire t ht => exact inv_runFrame hI ht
  | finishFire f hf hdue =>
    have hm := mounted_of_finishT hI hf
    have hOk := hI.finOk f hf
    exact inv_completeOnce (inv_eraseFin hI) hOk.1 hOk.2
      (fun htk => hI.finEv f hf htk) hm
  | twistFire f hf hdue =>
    have hm := mounted_of_twistT hI hf
    have hOk := hI.twistOk f hf
    exact inv_completeOnce (inv_eraseTwist hI) hOk.1 hOk.2
      (fun htk => hI.twistEv f hf htk) hm
  | unmount hm => exact inv_cleanup hI

theorem inv_reachable {P : Params α} {s : MState α} (h : Reachable P s) :
    Inv P s := by
  induction h with
  | refl => exact inv_init P
  | tail _ hstep ih => exact inv_step ih hstep

/-! ## Branch-evaluation lemmas for a canonical completing run -/

lemma spinCall_starts {P : Params α} (rng : ℕ → ℚ) (r : ℚ) (s : MState α)
    (hg : ¬(s.isSpinning = true ∨ P.pool.length = 0)) :
    spinCall P rng r s = { s with
      isSpinning := true
      completedToken := none
      spinStartedAt := s.now
      events := s.events ++ [(s.now, Ev.start (s.spinToken + 1))]
      animF := none
      finishT := none
      twistT := none
      spinToken := s.spinToken + 1
      pos := 0
      startT := some ⟨s.spinToken + 1, buildSequence P rng,
        targetTranslate P (buildSequence P rng).length r⟩ } := by
  unfold spinCall
  rw [if_neg hg]

lemma runFrame_spin_done {P : Params α} (s : MState α) (d : SpinData α)
    (st : ℚ) (htok : d.token = s.spinToken)
    (hprog : ¬(min ((s.now - st) / P.duration) 1 < 1)) :
    runFrame P s (.spinPhase d st) = { s with
      pos := 0 + (d.targetTranslate - 0) *
        (1 - (1 - min ((s.now - st) / P.duration) 1)^3)
      animF := some (.twistPhase d s.now d.targetTranslate
        (resolveFromTranslate P d.items.length d.targetTranslate)
        ((0 - (((resolveFromTranslate P d.items.length d.targetTranslate -
            (centerIndex d.items.length : ℤ) : ℤ) : ℚ) * P.itemTotal)) -
          d.targetTranslate)) } := by
  simp only [runFrame]
  rw [if_neg (not_not_intro htok), if_neg hprog]

lemma runFrame_twist_done {P : Params α} (s : MState α) (d : SpinData α)
    (ts sp : ℚ) (ci : ℤ) (off : ℚ) (htok : d.token = s.spinToken)
    (hprog : ¬(min ((s.now - ts) / P.twistDuration) 1 < 1)) :
    runFrame P s (.twistPhase d ts sp ci off) = { s with
      pos := sp + off * (1 - (1 - min ((s.now - ts) / P.twistDuration) 1)^3)
      animF := none
      twistT := some ⟨d, ci, s.now + 50⟩ } := by
  simp only [runFrame]
  rw [if_neg (not_not_intro htok), if_neg hprog]

lemma completeOnce_emit {P : Params α} (s : MState α) (d : SpinData α)
    (idx : ℤ) (htok : d.token = s.spinToken)
    (hc : ¬(s.completedToken = some d.token))
    (hge : ¬(s.now - s.spinStartedAt < P.minMs))
    (hb : 0 ≤ idx ∧ idx < (d.items.length : ℤ)) :
    completeOnce P d idx s = { s with
      completedToken := some d.token
      isSpinning := false
      events := s.events ++
        [(s.now, Ev.finish d.token (d.items.getD idx.toNat P.placeholder))] } := by
  unfold completeOnce
  rw [if_neg (not_not_intro htok), if_neg hc]
  dsimp only
  rw [if_neg hge, if_pos hb]

lemma run_completes_aux {P : Params α} (rng : ℕ → ℚ) (r : ℚ) (items : List α)
    (tt : ℚ) (hval : ValidDraws rng r) (hitems : items = buildSequence P rng)
    (htt : tt = targetTranslate P items.length r) (hpool : P.pool ≠ [])
    (hdur : 0 < P.duration) (htw : 0 < P.twistDuration)
    (hlen : 1 ≤ items.length) :
    ∃ s : MState α, Reachable P s ∧ countEnd 1 s.events = 1 := by
  have hg : ¬((init (α := α)).isSpinning = true ∨ P.pool.length = 0) := by
    simp [init, List.length_eq_zero, hpool]
  have e1 : spinCall P rng r (init (α := α)) =
      (⟨0, 0, true, 1, none, 0, some ⟨1, items, tt⟩, none, none, none, true,
        [(0, Ev.start 1)]⟩ : MState α) := by
    rw [spinCall_starts rng r _ hg, ← hitems, ← htt]
    rfl
  have st1 : Step P (init (α := α))
      ⟨0, 0, true, 1, none, 0, some ⟨1, items, tt⟩, none, none, none, true,
        [(0, Ev.start 1)]⟩ :=
    e1 ▸ Step.spin (init (α := α)) rng r rfl hval
  have st2 : Step P
      ⟨0, 0, true, 1, none, 0, some ⟨1, items, tt⟩, none, none, none, true,
        [(0, Ev.start 1)]⟩
      ⟨0, 0, true, 1, none, 0, none, some (.spinPhase ⟨1, items, tt⟩ 0),
        none, none, true, [(0, Ev.start 1)]⟩ :=
    Step.startFire _ ⟨1, items, tt⟩ rfl
  have st3 : Step P
      ⟨0, 0, true, 1, none, 0, none, some (.spinPhase ⟨1, items, tt⟩ 0),
        none, none, true, [(0, Ev.start 1)]⟩
      ⟨P.duration, 0, true, 1, none, 0, none,
        some (.spinPhase ⟨1, items, tt⟩ 0), none, none, true,
        [(0, Ev.start 1)]⟩ :=
    Step.tick _ P.duration hdur.le
  have hp1 : ¬(min ((P.duration - 0) / P.duration) 1 < 1) := by
    rw [sub_zero, div_self (ne_of_gt hdur), min_self]
    exact lt_irrefl 1
  have e4 := runFrame_spin_done (P := P)
    ⟨P.duration, 0, true, 1, none, 0, none,
      some (.spinPhase ⟨1, items, tt⟩ 0), none, none, true,
      [(0, Ev.start 1)]⟩
    ⟨1, items, tt⟩ 0 rfl hp1
  have st4 : Step P
      ⟨P.duration, 0, true, 1, none, 0, none,
        some (.spinPhase ⟨1, items, tt⟩ 0), none, none, true,
        [(0, Ev.start 1)]⟩
      ⟨P.duration, 0 + (tt - 0) * (1 - (1 - min ((P.duration - 0) / P.duration) 1)^3),
        true, 1, none, 0, none,
        some (.twistPhase ⟨1, items, tt⟩ P.duration tt
          (resolveFromTranslate P items.length tt)
          ((0 - (((resolveFromTranslate P items.length tt -
              (centerIndex items.length : ℤ) : ℤ) : ℚ) * P.itemTotal)) - tt)),
        none, none, true, [(0, Ev.start 1)]⟩ :=
    e4 ▸ Step.frameFire _ (.spinPhase ⟨1, items, tt⟩ 0) rfl
  have st5 : Step P
      ⟨P.duration, 0 + (tt - 0) * (1 - (1 - min ((P.duration - 0) / P.duration) 1)^3),
        true, 1, none, 0, none,
        some (.twistPhase ⟨1, items, tt⟩ P.duration tt
          (resolveFromTranslate P items.length tt)
          ((0 - (((resolveFromTranslate P items.length tt -
              (centerIndex items.length : ℤ) : ℤ) : ℚ) * P.itemTotal)) - tt)),
        none, none, true, [(0, Ev.start 1)]⟩
      ⟨P.duration + P.twistDuration,
        0 + (tt - 0) * (1 - (1 - min ((P.duration - 0) / P.duration) 1)^3),
        true, 1, none, 0, none,
        some (.twistPhase ⟨1, items, tt⟩ P.duration tt
          (resolveFromTranslate P items.length tt)
          ((0 - (((resolveFromTranslate P items.length tt -
              (centerIndex items.length : ℤ) : ℤ) : ℚ) * P.itemTotal)) - tt)),
        none, none, true, [(0, Ev.start 1)]⟩ :=
    Step.tick _ (P.duration + P.twistDuration) (by linarith)
  have hp2 : ¬(min ((P.duration + P.twistDuration - P.duration) / P.twistDuration) 1 < 1) := by
    rw [add_sub_cancel_left, div_self (ne_of_gt htw), min_self]
    exact lt_irrefl 1
  have e6 := runFrame_twist_done (P := P)
    ⟨P.duration + P.twistDuration,
      0 + (tt - 0) * (1 - (1 - min ((P.duration - 0) / P.duration) 1)^3),
      true, 1, none, 0, none,
      some (.twistPhase ⟨1, items, tt⟩ P.duration tt
        (resolveFromTranslate P items.length tt)
        ((0 - (((resolveFromTranslate P items.length tt -
            (centerIndex items.length : ℤ) : ℤ) : ℚ) * P.itemTotal)) - tt)),
      none, none, true, [(0, Ev.start 1)]⟩
    ⟨1, items, tt⟩ P.duration tt (resolveFromTranslate P items.length tt)
    ((0 - (((resolveFromTranslate P items.length tt -
        (centerIndex items.length : ℤ) : ℤ) : ℚ) * P.itemTotal)) - tt)
    rfl hp2
  have st6 : Step P
      ⟨P.duration + P.twistDuration,
        0 + (tt - 0) * (1 - (1 - min ((P.duration - 0) / P.duration) 1)^3),
        true, 1, none, 0, none,
        some (.twistPhase ⟨1, items, tt⟩ P.duration tt
          (resolveFromTranslate P items.length tt)
          ((0 - (((resolveFromTranslate P items.length tt -
              (centerIndex items.length : ℤ) : ℤ) : ℚ) * P.itemTotal)) - tt)),
        none, none, true, [(0, Ev.start 1)]⟩
      ⟨P.duration + P.twistDuration,
        tt + ((0 - (((resolveFromTranslate P items.length tt -
            (centerIndex items.length : ℤ) : ℤ) : ℚ) * P.itemTotal)) - tt) *
          (1 - (1 - min ((P.duration + P.twistDuration - P.duration) / P.twistDuration) 1)^3),
        true, 1, none, 0, none, none, none,
        some ⟨⟨1, items, tt⟩, resolveFromTranslate P items.length tt,
          P.duration + P.twistDuration + 50⟩,
        true, [(0, Ev.start 1)]⟩ :=
    e6 ▸ Step.frameFire _ _ rfl
  have st7 : Step P
      ⟨P.duration + P.twistDuration,
        tt + ((0 - (((resolveFromTranslate P items.length tt -
            (centerIndex items.length : ℤ) : ℤ) : ℚ) * P.itemTotal)) - tt) *
          (1 - (1 - min ((P.duration + P.twistDuration - P.duration) / P.twistDuration) 1)^3),
        true, 1, none, 0, none, none, none,
        some ⟨⟨1, items, tt⟩, resolveFromTranslate P items.length tt,
          P.duration + P.twistDuration + 50⟩,
        true, [(0, Ev.start 1)]⟩
      ⟨P.duration + P.twistDuration + 50,
        tt + ((0 - (((resolveFromTranslate P items.length tt -
            (centerIndex items.length : ℤ) : ℤ) : ℚ) * P.itemTotal)) - tt) *
          (1 - (1 - min ((P.duration + P.twistDuration - P.duration) / P.twistDuration) 1)^3),
        true, 1, none, 0, none, none, none,
        some ⟨⟨1, items, tt⟩, resolveFromTranslate P items.length tt,
          P.duration + P.twistDuration + 50⟩,
        true, [(0, Ev.start 1)]⟩ :=
    Step.tick _ (P.duration + P.twistDuration + 50) (by linarith)
  have hge : ¬((P.duration + P.twistDuration + 50 - (0 : ℚ)) < P.minMs) := by
    unfold Params.minMs
    intro hcon
    linarith
  have e8 := completeOnce_emit (P := P)
    ⟨P.duration + P.twistDuration + 50,
      tt + ((0 - (((resolveFromTranslate P items.length tt -
          (centerIndex items.length : ℤ) : ℤ) : ℚ) * P.itemTotal)) - tt) *
        (1 - (1 - min ((P.duration + P.twistDuration - P.duration) / P.twistDuration) 1)^3),
      true, 1, none, 0, none, none, none, none,
      true, [(0, Ev.start 1)]⟩
    ⟨1, items, tt⟩ (resolveFromTranslate P items.length tt)
    rfl (by simp) hge (resolve_bounds P items.length tt hlen)
  have st8 : Step P
      ⟨P.duration + P.twistDuration + 50,
        tt + ((0 - (((resolveFromTranslate P items.length tt -
            (centerIndex items.length : ℤ) : ℤ) : ℚ) * P.itemTotal)) - tt) *
          (1 - (1 - min ((P.duration + P.twistDuration - P.duration) / P.twistDuration) 1)^3),
        true, 1, none, 0, none, none, none,
        some ⟨⟨1, items, tt⟩, resolveFromTranslate P items.length tt,
          P.duration + P.twistDuration + 50⟩,
        true, [(0, Ev.start 1)]⟩
      ⟨P.duration + P.twistDuration + 50,
        tt + ((0 - (((resolveFromTranslate P items.length tt -
            (centerIndex items.length : ℤ) : ℤ) : ℚ) * P.itemTotal)) - tt) *
          (1 - (1 - min ((P.duration + P.twistDuration - P.duration) / P.twistDuration) 1)^3),
        false, 1, some 1, 0, none, none, none, none,
        true, [(0, Ev.start 1)] ++
          [(P.duration + P.twistDuration + 50,
            Ev.finish 1 (items.getD
              (resolveFromTranslate P items.length tt).toNat P.placeholder))]⟩ :=
    e8 ▸ Step.twistFire _
      ⟨⟨1, items, tt⟩, resolveFromTranslate P items.length tt,
        P.duration + P.twistDuration + 50⟩ rfl (le_refl _)
  have R8 := (((((((Relation.ReflTransGen.refl.tail st1).tail st2).tail
    st3).tail st4).tail st5).tail st6).tail st7).tail st8
  exact ⟨_, R8, by
    rw [countEnd_append, countEnd_single_start, countEnd_single_finish]
    simp⟩

lemma run_completes {P : Params α} (hpool : P.pool ≠ [])
    (hdur : 0 < P.duration) (htw : 0 < P.twistDuration)
    (hcount : 1 ≤ P.reelItemCount) (hfti : 0 ≤ P.forcedTargetIndex) :
    ∃ s : MState α, Reachable P s ∧ countEnd 1 s.events = 1 := by
  have hval : ValidDraws (fun _ => (0 : ℚ)) 0 :=
    ⟨fun n => ⟨le_refl 0, by norm_num⟩, le_refl 0, by norm_num⟩
  have hlen : 1 ≤ (buildSequence P (fun _ => (0 : ℚ))).length := by
    cases hfc : P.forcedResult with
    | none =>
        rw [buildSequence_length_none P _ hfc]
        exact hcount
    | some f =>
        simp only [buildSequence, hfc, List.length_append, setAt_length,
          generateItems_length, Params.forcedBaseCount]
        omega
  exact run_completes_aux (fun _ => (0 : ℚ)) 0 _ _ hval rfl rfl hpool hdur htw hlen

lemma frozen_after_unmount {P : Params α} {s0 s' : MState α}
    (h : Relation.ReflTransGen (Step P) s0 s')
    (hm : s0.mounted = false) (h1 : s0.startT = none) (h2 : s0.animF = none)
    (h3 : s0.finishT = none) (h4 : s0.twistT = none) :
    s'.events = s0.events ∧ s'.mounted = false ∧ s'.startT = none ∧
      s'.animF = none ∧ s'.finishT = none ∧ s'.twistT = none := by
  induction h with
  | refl => exact ⟨rfl, hm, h1, h2, h3, h4⟩
  | tail hrtg hstep ih =>
    obtain ⟨he, hm', h1', h2', h3', h4'⟩ := ih
    cases hstep with
    | tick t ht => exact ⟨he, hm', h1', h2', h3', h4'⟩
    | spin rng r hmt hv => rw [hm'] at hmt; exact nomatch hmt
    | startFire d hd => rw [h1'] at hd; exact nomatch hd
    | frameFire t ht => rw [h2'] at ht; exact nomatch ht
    | finishFire f hf hdue => rw [h3'] at hf; exact nomatch hf
    | twistFire f hf hdue => rw [h4'] at hf; exact nomatch hf
    | unmount hmt => rw [hm'] at hmt; exact nomatch hmt

lemma empty_pool_frozen {P : Params α} (hp : P.pool = []) {s : MState α}
    (hs : Reachable P s) :
    s.events = [] ∧ s.startT = none ∧ s.animF = none ∧ s.finishT = none ∧
      s.twistT = none := by
  induction hs with
  | refl => exact ⟨rfl, rfl, rfl, rfl, rfl⟩
  | tail hrtg hstep ih =>
    obtain ⟨he, h1, h2, h3, h4⟩ := ih
    cases hstep with
    | tick t ht => exact ⟨he, h1, h2, h3, h4⟩
    | spin rng r hmt hv =>
      rename_i b
      have hno : spinCall P rng r b = b := by
        unfold spinCall
        rw [if_pos (Or.inr (by rw [hp]; rfl))]
      rw [hno]
      exact ⟨he, h1, h2, h3, h4⟩
    | startFire d hd => rw [h1] at hd; exact nomatch hd
    | frameFire t ht => rw [h2] at ht; exact nomatch ht
    | finishFire f hf hdue => rw [h3] at hf; exact nomatch hf
    | twistFire f hf hdue => rw [h4] at hf; exact nomatch hf
    | unmount hmt =>
      exact ⟨he, rfl, rfl, rfl, rfl⟩

/-! ## Claim theorems (temporal layer) -/

/-- **C1**: for every valid configuration, `onSpinEnd` is delivered at most
once per spin token in every schedule; every delivered `onSpinEnd` comes no
earlier than `duration + twistDuration` wall-clock milliseconds after the
matching `onSpinStart`; a pending completion timer for the live token is
always due no earlier than `spinStartedAt + duration + twistDuration`
(completion is deferred, never fired early); and some schedule actually
delivers `onSpinEnd` exactly once for the first spin. -/
theorem spin_end_exactly_once_and_never_early (P : Params α)
    (hpool : P.pool ≠ []) (hdur : 0 < P.duration) (htw : 0 < P.twistDuration)
    (hcount : 1 ≤ P.reelItemCount) (hfti : 0 ≤ P.forcedTargetIndex) :
    (∀ s, Reachable P s →
      (∀ k, countEnd k s.events ≤ 1) ∧
      (∀ t k x, (t, Ev.finish k x) ∈ s.events →
        ∃ t0, (t0, Ev.start k) ∈ s.events ∧
          t0 + (P.duration + P.twistDuration) ≤ t) ∧
      (∀ f, s.finishT = some f → f.d.token = s.spinToken →
        s.spinStartedAt + (P.duration + P.twistDuration) ≤ f.due)) ∧
    (∃ s, Reachable P s ∧ countEnd 1 s.events = 1) := by
  constructor
  · intro s hs
    have hI := inv_reachable hs
    refine ⟨hI.endAtMostOne, ?_, ?_⟩
    · intro t k x hmem
      obtain ⟨t0, h0, hb⟩ := hI.timing t k x hmem
      exact ⟨t0, h0, hb⟩
    · intro f hf htk
      exact hI.finDue f hf htk
  · exact run_completes hpool hdur htw hcount hfti

/-- **C2**: for every spin configured with a forced result and
`reelItemCount ≥ forcedTargetIndex + 1` (the index being in range), every
`onSpinEnd` ever delivered carries exactly the forced item, and the
generated sequence has length `reelItemCount` with the forced item at
`forcedTargetIndex`; the end-to-end outcome is the forced item. -/
theorem forced_result_delivered (P : Params α) (f : α)
    (hf : P.forcedResult = some f) (hfi : 0 ≤ P.forcedTargetIndex)
    (hle : P.forcedTargetIndex + 1 ≤ (P.reelItemCount : ℤ)) :
    (∀ s, Reachable P s → ∀ t k x, (t, Ev.finish k x) ∈ s.events → x = f) ∧
    (∀ rng r, ValidDraws rng r →
      (buildSequence P rng).length = P.reelItemCount ∧
      (buildSequence P rng)[P.forcedTargetIndex.toNat]? = some f ∧
      spinOutcome P rng r = some f) := by
  constructor
  · intro s hs t k x hmem
    obtain ⟨rng, r, hv, hout⟩ := (inv_reachable hs).evItem t k x hmem
    rw [spinOutcome_forced P f rng r hf hfi hle] at hout
    exact (Option.some.inj hout).symm
  · intro rng r hv
    exact ⟨buildSequence_length_forced P rng f hf hfi hle,
      buildSequence_forced_get P rng f hf hfi hle,
      spinOutcome_forced P f rng r hf hfi hle⟩

/-- **C3**: calling `spin()` while a spin is already live is a complete
no-op — the state is unchanged, so no `onSpinStart`/`onSpinEnd` pair is
ever produced for the superseded attempt and no callback fires. -/
theorem spin_while_live_is_noop (P : Params α) (s : MState α) (rng : ℕ → ℚ)
    (r : ℚ) (h : s.isSpinning = true) :
    spinCall P rng r s = s ∧ (spinCall P rng r s).events = s.events := by
  have he : spinCall P rng r s = s := by
    unfold spinCall
    rw [if_pos (Or.inl h)]
  exact ⟨he, by rw [he]⟩

/-- **C4**: after teardown (unmount) at any reachable moment — in
particular mid-spin — no further callback is ever delivered: the event log
never grows again, because the cleanup cancels every pending frame and
timer and nothing can reschedule them. -/
theorem teardown_fires_no_further_callbacks (P : Params α) (s s' : MState α)
    (hs : Reachable P s)
    (h : Relation.ReflTransGen (Step P) (cleanup s) s') :
    s'.events = s.events :=
  (frozen_after_unmount h rfl rfl rfl rfl rfl).1

/-- **C5**: with an empty item pool, `spin()` is a silent no-op on every
state, and no callback — neither `onSpinStart` nor `onSpinEnd` — is ever
emitted in any reachable state. -/
theorem empty_pool_spin_never_fires (P : Params α) (hp : P.pool = []) :
    (∀ (s : MState α) (rng : ℕ → ℚ) (r : ℚ), spinCall P rng r s = s) ∧
    (∀ s : MState α, Reachable P s → s.events = []) := by
  refine ⟨?_, fun s hs => (empty_pool_frozen hp hs).1⟩
  intro s rng r
  unfold spinCall
  rw [if_pos (Or.inr (by rw [hp]; rfl))]

/-- **C7**: for unforced spins from a non-empty pool, every item ever
passed to `onSpinEnd` is a member of the pool; every entry of a generated
sequence is drawn from the pool; and the resolved index is always within
`[0, len)` for any non-empty sequence. -/
theorem unforced_result_from_pool (P : Params α)
    (hf : P.forcedResult = none) (hp : P.pool ≠ []) :
    (∀ s, Reachable P s → ∀ t k x, (t, Ev.finish k x) ∈ s.events → x ∈ P.pool) ∧
    (∀ rng r, ValidDraws rng r → ∀ x ∈ buildSequence P rng, x ∈ P.pool) ∧
    (∀ (len : ℕ) (tt : ℚ), 1 ≤ len →
      0 ≤ resolveFromTranslate P len tt ∧
        resolveFromTranslate P len tt < (len : ℤ)) := by
  refine ⟨?_, ?_, fun len tt h => resolve_bounds P len tt h⟩
  · intro s hs t k x hmem
    obtain ⟨rng, r, hv, hout⟩ := (inv_reachable hs).evItem t k x hmem
    exact spinOutcome_none_mem P rng r x hf hp hv.1 hout
  · intro rng r hv
    exact buildSequence_mem_none P rng hf hp hv.1

/-! ## Witnesses: each hypothesis-bearing claim theorem applied at a
concrete configuration -/

theorem spin_end_exactly_once_and_never_early_witness :
    ∃ s, Reachable demoParams s ∧ countEnd 1 s.events = 1 :=
  (spin_end_exactly_once_and_never_early demoParams (by decide)
    (by norm_num [demoParams]) (by norm_num [demoParams]) (by decide)
    (by decide)).2

theorem forced_result_delivered_witness :
    (buildSequence demoForced (fun _ => 0)).length = demoForced.reelItemCount ∧
    (buildSequence demoForced (fun _ => 0))[demoForced.forcedTargetIndex.toNat]? =
      some 99 ∧
    spinOutcome demoForced (fun _ => 0) 0 = some 99 :=
  (forced_result_delivered demoForced 99 rfl (by decide) (by decide)).2
    (fun _ => 0) 0 ⟨fun n => ⟨le_refl 0, by norm_num⟩, le_refl 0, by norm_num⟩

theorem spin_while_live_is_noop_witness :
    spinCall demoParams (fun _ => 0) 0 { init (α := ℕ) with isSpinning := true } =
      { init (α := ℕ) with isSpinning := true } ∧
    (spinCall demoParams (fun _ => 0) 0
        { init (α := ℕ) with isSpinning := true }).events =
      ({ init (α := ℕ) with isSpinning := true } : MState ℕ).events :=
  spin_while_live_is_noop demoParams _ (fun _ => 0) 0 rfl

theorem teardown_fires_no_further_callbacks_witness :
    (cleanup (init (α := ℕ))).events = (init (α := ℕ)).events :=
  teardown_fires_no_further_callbacks demoParams (init (α := ℕ))
    (cleanup (init (α := ℕ))) Relation.ReflTransGen.refl
    Relation.ReflTransGen.refl

theorem empty_pool_spin_never_fires_witness :
    (∀ (s : MState ℕ) (rng : ℕ → ℚ) (r : ℚ), spinCall demoEmpty rng r s = s) ∧
    (∀ s : MState ℕ, Reachable demoEmpty s → s.events = []) :=
  empty_pool_spin_never_fires demoEmpty rfl

theorem unforced_result_from_pool_witness :
    0 ≤ resolveFromTranslate demoParams 6 0 ∧
      resolveFromTranslate demoParams 6 0 < (6 : ℤ) :=
  (unforced_result_from_pool demoParams rfl (by decide)).2.2 6 0 (by decide)

theorem jitter_bounded_and_never_shifts_index_witness :
    |randomOffset demoParams 0| ≤ STOP_OFFSET_RATIO * demoParams.itemTotal ∧
    jround (((3 : ℕ) : ℚ) - translateFor demoParams 3 1 0 / demoParams.itemTotal)
      = 1 :=
  jitter_bounded_and_never_shifts_index demoParams 3 1 0 (le_refl 0)
    (by norm_num) (by norm_num [demoParams, Params.itemTotal])

theorem both_phases_use_cubic_ease_out_law_witness :
    (runFrame demoParams (init (α := ℕ)) (.spinPhase ⟨0, [], 0⟩ 0)).pos =
      specPosition 0 0 (0 - 0) demoParams.duration ∧
    (runFrame demoParams (init (α := ℕ)) (.twistPhase ⟨0, [], 0⟩ 0 0 0 0)).pos =
      specPosition 0 (0 + 0) (0 - 0) demoParams.twistDuration ∧
    ∀ p : ℚ, specEase p = 1 - (1 - p)^3 :=
  both_phases_use_cubic_ease_out_law demoParams (init (α := ℕ)) ⟨0, [], 0⟩
    0 0 0 0 0 rfl

theorem unforced_landing_index_deterministic_witness :
    (buildSequence demoParams (fun _ => 0)).length = demoParams.reelItemCount ∧
    resolveFromTranslate demoParams demoParams.reelItemCount
        (targetTranslate demoParams demoParams.reelItemCount 0) =
      max 0 (min ((demoParams.reelItemCount : ℤ) - 5)
        ((demoParams.reelItemCount : ℤ) - 1)) ∧
    |randomOffset demoParams 0| < demoParams.itemTotal / 2 :=
  unforced_landing_index_deterministic demoParams (fun _ => 0) 0 rfl
    (by norm_num [demoParams, Params.itemTotal]) (le_refl 0) (by norm_num)

end SlotMachine
